import Mathlib

/-!
Verification of the DigiMark client-side input-guard script
(`static/js/main.js`).

The script consists of one helper function, `validateFileInput`, which
checks the first file selected on a file-input control against an
allow-list of file-name extensions and a 16 MB size cap, showing a
blocking alert and clearing the control on each violation, and a
`DOMContentLoaded` handler that registers that helper on two optional
controls and schedules an auto-dismiss timer for every alert banner.

We embed the script shallowly: a file-input control's selection state is
the list of its selected files (the DOM `FileList`), alerts shown are
collected in a list of message strings, and clearing the control
(`input.value = ''`) replaces the selection by the empty list.
-/

/-- A selected file as the script observes it: a name and a byte size. -/
structure JFile where
  name : String
  size : Nat
  deriving DecidableEq, Repr

/-- `maxSize = 16 * 1024 * 1024`, the size cap from the script. -/
def maxSize : Nat := 16 * 1024 * 1024

/-- JavaScript `String.prototype.split` with a one-character separator,
on the character-list view of strings.  `split` always returns a
non-empty array; splitting the empty string yields `[""]`. -/
def splitOnChar (c : Char) : List Char → List (List Char)
  | [] => [[]]
  | x :: xs =>
    if x = c then
      [] :: splitOnChar c xs
    else
      match splitOnChar c xs with
      | [] => [[x]]
      | y :: ys => (x :: y) :: ys

/-- `fileName.split('.').pop().toLowerCase()` from the script: the last
segment of the name split on `'.'`, lowercased. -/
def fileExtension (name : String) : String :=
  String.mk (((splitOnChar '.' name.data).getLastD []).map Char.toLower)

/-- JavaScript `Array.prototype.join` with a separator, as used by
`allowedExtensions.join(', ')`. -/
def joinSep (sep : String) : List String → String
  | [] => ""
  | [a] => a
  | a :: rest => a ++ sep ++ joinSep sep rest

/-- The type-violation alert text:
`` `Invalid file type. Allowed types: ${allowedExtensions.join(', ')}` ``. -/
def typeAlertMsg (allowedExtensions : List String) : String :=
  "Invalid file type. Allowed types: " ++ joinSep ", " allowedExtensions

/-- The size-violation alert text from the script. -/
def sizeAlertMsg : String :=
  "File size exceeds the maximum limit of 16MB."

/-- `validateFileInput(input, allowedExtensions)`: takes the control's
current selection (`input.files`) and returns the selection after the
call together with the list of alerts shown, in order.

Mirrors the script line by line: `file = input.files[0]`; early return
when there is no file; extension check clearing the selection and
alerting on failure; then, unconditionally, the size check doing the
same.  The `file` binding is captured before any clearing, exactly as in
the script. -/
def validateFileInput (files : List JFile) (allowedExtensions : List String) :
    List JFile × List String :=
  match files.head? with
  | none => (files, [])
  | some file =>
    let ext := fileExtension file.name
    let st :=
      if allowedExtensions.contains ext then
        (files, ([] : List String))
      else
        (([] : List JFile), [typeAlertMsg allowedExtensions])
    if maxSize < file.size then
      (([] : List JFile), st.2 ++ [sizeAlertMsg])
    else
      st

/-- Allowed extensions registered for the `answer_sheet` control. -/
def sheetAllowed : List String := ["jpg", "jpeg", "png", "pdf"]

/-- Allowed extensions registered for the `answer_key` control. -/
def keyAllowed : List String := ["jpg", "jpeg", "png", "pdf", "txt"]

/-- The part of the page state the `DOMContentLoaded` handler looks up:
whether each of the two named controls is present. -/
structure Dom where
  answerSheetPresent : Bool
  answerKeyPresent : Bool
  deriving DecidableEq, Repr

/-- The change-handler registrations performed by the `DOMContentLoaded`
handler: for each control found by `getElementById`, one entry pairing
the control's identifier with the allow-list its handler is
parameterized with.  An absent control contributes nothing. -/
def registerHandlers (d : Dom) : List (String × List String) :=
  (if d.answerSheetPresent then [("answer_sheet", sheetAllowed)] else [])
    ++ (if d.answerKeyPresent then [("answer_key", keyAllowed)] else [])

/-- A notification banner as the auto-dismiss code observes it: whether
it contains a `.btn-close` dismiss affordance, and whether it has been
dismissed. -/
structure Banner where
  hasCloseButton : Bool
  dismissed : Bool
  deriving DecidableEq, Repr

/-- The body of the 5000 ms `setTimeout` callback for one banner: look
up the banner's close button and, if present, click it (which dismisses
the banner); otherwise do nothing. -/
def timerAction (b : Banner) : Banner :=
  if b.hasCloseButton then { b with dismissed := true } else b

/-- Modelled from the spec: the file's suffix as §4.1 step 2 describes
it — "the substring after the last \".\" in its name, lowercased", the
whole name lowercased when the name has no ".". -/
def specSuffix (name : String) : String :=
  if name.data.contains '.' then
    String.mk (((name.data.reverse.takeWhile (fun ch => ch ≠ '.')).reverse).map Char.toLower)
  else
    String.mk (name.data.map Char.toLower)

/-! ### Helper lemmas about `splitOnChar` and `List.takeWhile` -/

/-- `split` never returns an empty array. -/
theorem splitOnChar_ne_nil (c : Char) (cs : List Char) : splitOnChar c cs ≠ [] := by
  induction cs with
  | nil => simp [splitOnChar]
  | cons x xs ih =>
    unfold splitOnChar
    by_cases h : x = c
    · simp [h]
    · simp only [if_neg h]
      cases hS : splitOnChar c xs with
      | nil => simp
      | cons y ys => simp

/-- Splitting on a character that does not occur returns the whole list
as the single segment. -/
theorem splitOnChar_of_not_mem {c : Char} {cs : List Char} (h : c ∉ cs) :
    splitOnChar c cs = [cs] := by
  induction cs with
  | nil => rfl
  | cons x xs ih =>
    have hx : ¬ x = c := by
      intro he; subst he; exact h (List.mem_cons_self x xs)
    have hxs : c ∉ xs := fun hm => h (List.mem_cons_of_mem _ hm)
    unfold splitOnChar
    rw [if_neg hx, ih hxs]

/-- Splitting on a character that does occur yields at least two segments. -/
theorem two_le_length_splitOnChar {c : Char} {cs : List Char} (h : c ∈ cs) :
    2 ≤ (splitOnChar c cs).length := by
  induction cs with
  | nil => cases h
  | cons x xs ih =>
    unfold splitOnChar
    by_cases hx : x = c
    · rw [if_pos hx]
      have h1 : 0 < (splitOnChar c xs).length :=
        List.length_pos.mpr (splitOnChar_ne_nil c xs)
      simpa using Nat.succ_le_succ h1
    · rw [if_neg hx]
      have hmem : c ∈ xs := by
        rcases List.mem_cons.mp h with h1 | h1
        · exact absurd h1.symm hx
        · exact h1
      have h2 := ih hmem
      cases hS : splitOnChar c xs with
      | nil => exact absurd hS (splitOnChar_ne_nil c xs)
      | cons y ys =>
        rw [hS] at h2
        simpa using h2

/-- `takeWhile` ignores a trailing element that fails the predicate. -/
theorem takeWhile_append_singleton_of_neg {α : Type} {p : α → Bool} {a : α}
    (h : p a = false) (l : List α) :
    List.takeWhile p (l ++ [a]) = List.takeWhile p l := by
  induction l with
  | nil => simp [List.takeWhile, h]
  | cons x xs ih =>
    cases hx : p x <;> simp [List.takeWhile_cons, hx, ih]

/-- `takeWhile` ignores everything appended after a failing element. -/
theorem takeWhile_append_of_exists_neg {α : Type} {p : α → Bool} {l : List α}
    (h : ∃ b ∈ l, p b = false) (l₂ : List α) :
    List.takeWhile p (l ++ l₂) = List.takeWhile p l := by
  induction l with
  | nil =>
    rcases h with ⟨b, hb, _⟩
    cases hb
  | cons x xs ih =>
    rcases h with ⟨b, hb, hpb⟩
    rcases List.mem_cons.mp hb with rfl | hmem
    · cases hx : p b
      · simp [List.takeWhile_cons, hx]
      · rw [hx] at hpb; cases hpb
    · cases hx : p x
      · simp [List.takeWhile_cons, hx]
      · simp [List.takeWhile_cons, hx, ih ⟨b, hmem, hpb⟩]

/-- The last segment of `splitOnChar c cs` is the longest suffix of `cs`
free of `c` — i.e. the part after the last occurrence of `c`, or all of
`cs` when `c` does not occur. -/
theorem getLastD_splitOnChar (c : Char) (cs : List Char) :
    (splitOnChar c cs).getLastD [] =
      (cs.reverse.takeWhile (fun ch => ch ≠ c)).reverse := by
  induction cs with
  | nil => rfl
  | cons x xs ih =>
    by_cases hx : x = c
    · subst hx
      unfold splitOnChar
      rw [if_pos rfl, List.getLastD_cons, ih, List.reverse_cons,
        takeWhile_append_singleton_of_neg (by simp) xs.reverse]
    · unfold splitOnChar
      rw [if_neg hx]
      by_cases hc : c ∈ xs
      · have h2 := two_le_length_splitOnChar hc
        cases hS : splitOnChar c xs with
        | nil => exact absurd hS (splitOnChar_ne_nil c xs)
        | cons y ys =>
          cases ys with
          | nil => rw [hS] at h2; simp at h2
          | cons z zs =>
            rw [hS] at ih
            simp only [List.getLastD_cons] at ih ⊢
            rw [List.reverse_cons,
              takeWhile_append_of_exists_neg ⟨c, by simpa using hc, by simp⟩]
            exact ih
      · rw [splitOnChar_of_not_mem hc]
        have hred :
            (match ([xs] : List (List Char)) with
              | [] => [[x]]
              | y :: ys => (x :: y) :: ys) = [x :: xs] := rfl
        rw [hred]
        have hall : (x :: xs).reverse.takeWhile (fun ch => decide (ch ≠ c))
            = (x :: xs).reverse := by
          apply List.takeWhile_eq_self_iff.mpr
          intro a ha
          have hmem : a ∈ x :: xs := List.mem_reverse.mp ha
      -- every element of x :: xs differs from c
          have hne : a ≠ c := by
            rcases List.mem_cons.mp hmem with rfl | h1
            · exact hx
            · intro he; subst he; exact hc h1
          simpa using hne
        rw [hall, List.reverse_reverse]
        rfl

/-! ### Helper lemmas about the alert messages -/

/-- Every member of the joined list occurs verbatim inside the join. -/
theorem mem_isInfix_joinSep (a : String) (sep : String) (l : List String)
    (h : a ∈ l) : List.IsInfix a.data (joinSep sep l).data := by
  induction l with
  | nil => cases h
  | cons x rest ih =>
    cases rest with
    | nil =>
      have hax : a = x := by simpa using h
      subst hax
      exact List.infix_refl a.data
    | cons y ys =>
      rcases List.mem_cons.mp h with rfl | hmem
      · show List.IsInfix a.data (a ++ sep ++ joinSep sep (y :: ys)).data
        rw [String.data_append, String.data_append, List.append_assoc]
        exact (List.prefix_append a.data _).isInfix
      · have hinf := ih hmem
        show List.IsInfix a.data (x ++ sep ++ joinSep sep (y :: ys)).data
        rw [String.data_append]
        exact hinf.trans (List.suffix_append _ _).isInfix

/-- The type alert names every allowed extension verbatim. -/
theorem mem_isInfix_typeAlertMsg (a : String) (allowed : List String)
    (h : a ∈ allowed) : List.IsInfix a.data (typeAlertMsg allowed).data := by
  unfold typeAlertMsg
  rw [String.data_append]
  exact (mem_isInfix_joinSep a ", " allowed h).trans
    (List.suffix_append _ _).isInfix

/-- The two alert texts are distinct, whatever the allow-list. -/
theorem typeAlertMsg_ne_sizeAlertMsg (allowed : List String) :
    typeAlertMsg allowed ≠ sizeAlertMsg := by
  intro h
  have hdata : (typeAlertMsg allowed).data = sizeAlertMsg.data := by rw [h]
  rw [typeAlertMsg, String.data_append] at hdata
  have hhead : (("Invalid file type. Allowed types: ".data
      ++ (joinSep ", " allowed).data).head? : Option Char) = some 'I' := by
    rfl
  rw [hdata] at hhead
  simp [sizeAlertMsg] at hhead

/-- Unfolding of `validateFileInput` on a non-empty selection, split by
the two checks. -/
theorem validateFileInput_cons (f : JFile) (rest : List JFile)
    (allowed : List String) :
    validateFileInput (f :: rest) allowed =
      if allowed.contains (fileExtension f.name) then
        (if maxSize < f.size then (([] : List JFile), [sizeAlertMsg])
          else (f :: rest, ([] : List String)))
      else
        (if maxSize < f.size then
          (([] : List JFile), [typeAlertMsg allowed, sizeAlertMsg])
          else (([] : List JFile), [typeAlertMsg allowed])) := by
  unfold validateFileInput
  simp only [List.head?]
  by_cases h : fileExtension f.name ∈ allowed <;>
    by_cases h2 : maxSize < f.size <;>
      simp [h, h2]

/-! ### Claim theorems -/

/-- C6: for every file name, the extension computed by the script
(`fileName.split('.').pop().toLowerCase()`) equals the substring after
the last "." in the name, lowercased — and for a name containing no "."
it equals the whole name lowercased, as `specSuffix` states. -/
theorem fileExtension_eq_specSuffix (name : String) :
    fileExtension name = specSuffix name := by
  unfold fileExtension specSuffix
  rw [getLastD_splitOnChar]
  by_cases h : name.data.contains '.'
  · rw [if_pos h]
  · rw [if_neg h]
    have hnot : ('.' : Char) ∉ name.data := by simpa using h
    have hall : name.data.reverse.takeWhile (fun ch => decide (ch ≠ '.'))
        = name.data.reverse := by
      apply List.takeWhile_eq_self_iff.mpr
      intro a ha
      have hmem : a ∈ name.data := List.mem_reverse.mp ha
      have hne : a ≠ '.' := by
        intro he; subst he; exact hnot hmem
      simpa using hne
    rw [hall, List.reverse_reverse]

/-- C8: when no file is selected on the control, validation does
nothing: the (empty) selection is unmodified and no alert is shown. -/
theorem validateFileInput_empty (allowed : List String) :
    validateFileInput [] allowed = ([], []) := rfl

/-- C2: a selected file whose lowercased extension is in the allow-list
and whose size is at most 16,777,216 bytes is kept: the selection is
unchanged and no alert is shown. -/
theorem validateFileInput_valid_unchanged (files : List JFile)
    (allowed : List String) (file : JFile)
    (hhead : files.head? = some file)
    (hext : fileExtension file.name ∈ allowed)
    (hsize : file.size ≤ maxSize) :
    validateFileInput files allowed = (files, []) := by
  cases files with
  | nil => simp at hhead
  | cons f fs =>
    have hf : f = file := by simpa using hhead
    subst hf
    rw [validateFileInput_cons]
    simp [hext, Nat.not_lt.mpr hsize]

/-- Witness for C2: the answer-sheet control keeps "scan.png" of 2 MB
with no alert. -/
theorem validateFileInput_valid_unchanged_witness :
    validateFileInput [⟨"scan.png", 2097152⟩] sheetAllowed
      = ([⟨"scan.png", 2097152⟩], []) :=
  validateFileInput_valid_unchanged [⟨"scan.png", 2097152⟩] sheetAllowed
    ⟨"scan.png", 2097152⟩ rfl (by decide) (by decide)

/-- C3 (counterexample to the claim as stated): a file whose extension
is not allowed does not always produce exactly one alert — when it is
also oversized, the type alert and the size alert both fire.  Concretely
"a.exe" of 16,777,217 bytes on the answer-sheet allow-list yields a
cleared selection but two alerts, not one. -/
theorem wrong_type_oversize_not_single_alert :
    ¬ ((validateFileInput [⟨"a.exe", 16777217⟩] sheetAllowed).1 = [] ∧
       (validateFileInput [⟨"a.exe", 16777217⟩] sheetAllowed).2.length = 1) := by
  decide

/-- C3 (amended): a selected file whose lowercased extension is not in
the allow-list and whose size is within the cap is cleared, exactly the
one type alert fires, and that alert names every allowed extension. -/
theorem validateFileInput_wrong_type_single_alert (files : List JFile)
    (allowed : List String) (file : JFile)
    (hhead : files.head? = some file)
    (hext : fileExtension file.name ∉ allowed)
    (hsize : file.size ≤ maxSize) :
    validateFileInput files allowed = ([], [typeAlertMsg allowed]) ∧
      ∀ a ∈ allowed, List.IsInfix a.data (typeAlertMsg allowed).data := by
  constructor
  · cases files with
    | nil => simp at hhead
    | cons f fs =>
      have hf : f = file := by simpa using hhead
      subst hf
      rw [validateFileInput_cons]
      simp [hext, Nat.not_lt.mpr hsize]
  · intro a ha
    exact mem_isInfix_typeAlertMsg a allowed ha

/-- Witness for the amended C3: the answer-sheet control clears
"scan.docx" of 2 MB with the single type alert. -/
theorem validateFileInput_wrong_type_single_alert_witness :
    validateFileInput [⟨"scan.docx", 2097152⟩] sheetAllowed
        = ([], [typeAlertMsg sheetAllowed]) ∧
      ∀ a ∈ sheetAllowed, List.IsInfix a.data (typeAlertMsg sheetAllowed).data :=
  validateFileInput_wrong_type_single_alert [⟨"scan.docx", 2097152⟩]
    sheetAllowed ⟨"scan.docx", 2097152⟩ rfl (by decide) (by decide)

/-- C4: a selected file larger than 16,777,216 bytes is cleared and the
size alert fires exactly once, whatever the allow-list and whether or
not the extension check passes. -/
theorem validateFileInput_oversize_clears (files : List JFile)
    (allowed : List String) (file : JFile)
    (hhead : files.head? = some file)
    (hsize : maxSize < file.size) :
    (validateFileInput files allowed).1 = [] ∧
      (validateFileInput files allowed).2.count sizeAlertMsg = 1 := by
  cases files with
  | nil => simp at hhead
  | cons f fs =>
    have hf : f = file := by simpa using hhead
    subst hf
    rw [validateFileInput_cons]
    by_cases hext : fileExtension f.name ∈ allowed
    · simp [hext, hsize]
    · simp [hext, hsize, List.count_cons,
        Ne.symm (typeAlertMsg_ne_sizeAlertMsg allowed)]

/-- Witness for C4: the answer-key control clears "key.txt" of 20 MB —
its extension is allowed, yet the size alert still fires. -/
theorem validateFileInput_oversize_clears_witness :
    (validateFileInput [⟨"key.txt", 20971520⟩] keyAllowed).1 = [] ∧
      (validateFileInput [⟨"key.txt", 20971520⟩] keyAllowed).2.count
        sizeAlertMsg = 1 :=
  validateFileInput_oversize_clears [⟨"key.txt", 20971520⟩] keyAllowed
    ⟨"key.txt", 20971520⟩ rfl (by decide)

/-- C5: a selected file that is both wrong-typed and oversized produces
the two alerts in sequence — the type alert, then the size alert — and
the selection ends cleared. -/
theorem validateFileInput_both_violations (files : List JFile)
    (allowed : List String) (file : JFile)
    (hhead : files.head? = some file)
    (hext : fileExtension file.name ∉ allowed)
    (hsize : maxSize < file.size) :
    validateFileInput files allowed
      = ([], [typeAlertMsg allowed, sizeAlertMsg]) := by
  cases files with
  | nil => simp at hhead
  | cons f fs =>
    have hf : f = file := by simpa using hhead
    subst hf
    rw [validateFileInput_cons]
    simp [hext, hsize]

/-- Witness for C5: "report.docx" of 20 MB on the answer-sheet control
triggers both alerts and ends cleared. -/
theorem validateFileInput_both_violations_witness :
    validateFileInput [⟨"report.docx", 20971520⟩] sheetAllowed
      = ([], [typeAlertMsg sheetAllowed, sizeAlertMsg]) :=
  validateFileInput_both_violations [⟨"report.docx", 20971520⟩] sheetAllowed
    ⟨"report.docx", 20971520⟩ rfl (by decide) (by decide)

/-- C1 (counterexample to the claim as stated): validation does not
guarantee that no violating file is retained.  With the two-file
selection ["a.jpg" (5 B), "b.exe" (20 MB)] on the answer-sheet
allow-list, the control neither ends empty nor holds only files meeting
both constraints: the unchecked second file violates both and is kept. -/
theorem validateFileInput_retains_violating_file :
    ¬ ((validateFileInput [⟨"a.jpg", 5⟩, ⟨"b.exe", 20971520⟩]
          sheetAllowed).1 = [] ∨
       ((validateFileInput [⟨"a.jpg", 5⟩, ⟨"b.exe", 20971520⟩]
            sheetAllowed).1 = [⟨"a.jpg", 5⟩, ⟨"b.exe", 20971520⟩] ∧
        ∀ g ∈ (validateFileInput [⟨"a.jpg", 5⟩, ⟨"b.exe", 20971520⟩]
            sheetAllowed).1,
          fileExtension g.name ∈ sheetAllowed ∧ g.size ≤ maxSize)) := by
  decide

/-- C1 (amended): on a control whose selection is a single file, after
validation the control holds either that originally selected file —
which then has an extension in the allow-list and size at most
16,777,216 bytes — or no selection at all. -/
theorem validateFileInput_single_file_invariant (file : JFile)
    (allowed : List String) :
    (validateFileInput [file] allowed).1 = [] ∨
      ((validateFileInput [file] allowed).1 = [file] ∧
        fileExtension file.name ∈ allowed ∧ file.size ≤ maxSize) := by
  rw [validateFileInput_cons]
  by_cases hext : fileExtension file.name ∈ allowed <;>
    by_cases hsize : maxSize < file.size
  · left; simp [hext, hsize]
  · right
    exact ⟨by simp [hext, hsize], hext, Nat.le_of_not_lt hsize⟩
  · left; simp [hext, hsize]
  · left; simp [hext, hsize]

/-- C10: validation inspects only the first file of the selection.  The
alerts shown, and whether the selection ends cleared, are the same for
any two selections sharing a first file; and a multi-file selection
whose first file passes both checks is retained in full, whatever the
later files are. -/
theorem validateFileInput_first_file_only (f : JFile)
    (rest rest' : List JFile) (allowed : List String) :
    (validateFileInput (f :: rest) allowed).2
        = (validateFileInput (f :: rest') allowed).2 ∧
      ((validateFileInput (f :: rest) allowed).1 = []
        ↔ (validateFileInput (f :: rest') allowed).1 = []) ∧
      (fileExtension f.name ∈ allowed → f.size ≤ maxSize →
        validateFileInput (f :: rest) allowed = (f :: rest, [])) := by
  rw [validateFileInput_cons, validateFileInput_cons]
  by_cases hext : fileExtension f.name ∈ allowed <;>
    by_cases hsize : maxSize < f.size <;>
      simp [hext, hsize]

/-- Witness for C10: the two-file selection ["a.jpg" (5 B), "b.exe"
(20 MB)] is retained in full on the answer-sheet control because its
first file is valid; the violating second file is never inspected. -/
theorem validateFileInput_first_file_only_witness :
    validateFileInput [⟨"a.jpg", 5⟩, ⟨"b.exe", 20971520⟩] sheetAllowed
      = ([⟨"a.jpg", 5⟩, ⟨"b.exe", 20971520⟩], []) :=
  (validateFileInput_first_file_only ⟨"a.jpg", 5⟩ [⟨"b.exe", 20971520⟩]
    [] sheetAllowed).2.2 (by decide) (by decide)

/-- C7: initialization registers the answer-sheet control, when present,
with allow-list ["jpg","jpeg","png","pdf"], and the answer-key control,
when present, with ["jpg","jpeg","png","pdf","txt"]; an absent control
is skipped, contributing no registration, and nothing fails. -/
theorem registerHandlers_characterization (d : Dom) :
    (d.answerSheetPresent = true →
      ("answer_sheet", sheetAllowed) ∈ registerHandlers d) ∧
    (d.answerSheetPresent = false →
      ∀ p ∈ registerHandlers d, p.1 ≠ "answer_sheet") ∧
    (d.answerKeyPresent = true →
      ("answer_key", keyAllowed) ∈ registerHandlers d) ∧
    (d.answerKeyPresent = false →
      ∀ p ∈ registerHandlers d, p.1 ≠ "answer_key") := by
  obtain ⟨s, k⟩ := d
  cases s <;> cases k <;> decide

/-- Witness for C7: on a page with only the answer-sheet control, that
control is registered with its allow-list and no answer-key handler is
registered. -/
theorem registerHandlers_characterization_witness :
    ("answer_sheet", sheetAllowed) ∈ registerHandlers ⟨true, false⟩ ∧
      ∀ p ∈ registerHandlers ⟨true, false⟩, p.1 ≠ "answer_key" :=
  ⟨(registerHandlers_characterization ⟨true, false⟩).1 rfl,
   (registerHandlers_characterization ⟨true, false⟩).2.2.2 rfl⟩

/-- C9: when a banner has no dismiss affordance, the 5000 ms timer
callback leaves it untouched (and, being a total function, raises no
error). -/
theorem timerAction_no_close_button (b : Banner)
    (h : b.hasCloseButton = false) : timerAction b = b := by
  simp [timerAction, h]

/-- Witness for C9: a not-yet-dismissed banner without a close button is
unchanged by the timer callback. -/
theorem timerAction_no_close_button_witness :
    timerAction ⟨false, false⟩ = ⟨false, false⟩ :=
  timerAction_no_close_button ⟨false, false⟩ rfl

